import Mathlib

/-!
# Verification of the design-tools diagnostic pipeline

Shallow embedding of the `design-ai-linter` package: the token model,
the static rule engine (`staticRunner.ts`, `rules/naming-convention.ts`,
`adapters/codeFileAdapter.ts`), the AI rule runner (`engine/aiRunner.ts`)
and the custom-rule loader, together with theorems checking the
natural-language specification against this code.

JavaScript builtins that the code calls (`RegExp`, `JSON.parse`,
`JSON.stringify`, the LLM network clients, the file system) are modelled
as explicit environment parameters; everything the repository itself
computes is translated into executable Lean definitions.
-/

namespace DesignTools

/-- JSON-like runtime values flowing through the pipeline.  `undef` models
JavaScript's `undefined` (absent property), which is distinct from `null`. -/
inductive Json where
  | undef : Json
  | null : Json
  | bool : Bool → Json
  | num : Int → Json
  | str : String → Json
  | arr : List Json → Json
  | obj : List (String × Json) → Json
deriving Repr, BEq

/-- Severity levels of diagnostics, `'error' | 'warn' | 'info'`. -/
inductive Severity where
  | error | warn | info
deriving Repr, DecidableEq

/-- A design token: `{ type: string, name: string, rawValue: any }`.
`rawValue` is a string in every code path exercised by the static rules. -/
structure Token where
  type : String
  name : String
  rawValue : String
deriving Repr, DecidableEq

/-- `CodeFile = { path, content, language }`; `language` is irrelevant to the
rules and omitted. -/
structure CodeFile where
  path : String
  content : String
deriving Repr, DecidableEq

/-- A diagnostic.  Static rules construct string-valued fields, the AI runner
copies arbitrary JSON values out of the model response, so the optional
fields hold `Json` (with `Json.undef` standing for an absent property). -/
structure Diagnostic where
  ruleId : String
  severity : Severity
  message : Json
  tokenName : Json := Json.undef
  suggestion : Json := Json.undef
  file : Json := Json.undef
  line : Json := Json.undef
  problem : Json := Json.undef
  reason : Json := Json.undef
  suggestedToken : Json := Json.undef
  fixedCode : Json := Json.undef
  impact : Json := Json.undef
deriving Repr, BEq

/-- The lint context handed to every AI rule's prompt builder:
`{ tokens, codeFiles? }`. -/
structure LintContext where
  tokens : List Token
  codeFiles : Option (List CodeFile) := none

/-! ## JavaScript string primitives

The code relies on a handful of JS string behaviours (`\s`, `trim`,
`toLowerCase`, `includes`, `replace` with a string argument).  They are
implemented here on `List Char` so that everything evaluates by `decide`. -/

/-- The JavaScript `\s` / `trim` whitespace class (the characters that can
realistically occur in token names and code files). -/
def isJsWs (c : Char) : Bool :=
  c = ' ' ∨ c = '\t' ∨ c = '\n' ∨ c = '\r' ∨ c = '\x0b' ∨ c = '\x0c' ∨ c = ' ' ∨ c = '﻿'

/-- JS regex word character `[A-Za-z0-9_]`, used for `\b` boundaries. -/
def isWordChar (c : Char) : Bool :=
  ('a' ≤ c ∧ c ≤ 'z') ∨ ('A' ≤ c ∧ c ≤ 'Z') ∨ ('0' ≤ c ∧ c ≤ '9') ∨ c = '_'

/-- ASCII digit, the JS regex `\d`. -/
def isDigitChar (c : Char) : Bool := '0' ≤ c ∧ c ≤ '9'

/-- Hex digit `[0-9A-Fa-f]`. -/
def isHexChar (c : Char) : Bool :=
  isDigitChar c ∨ ('a' ≤ c ∧ c ≤ 'f') ∨ ('A' ≤ c ∧ c ≤ 'F')

/-- `String.prototype.trim`. -/
def jsTrim (s : String) : String :=
  ⟨((s.data.dropWhile isJsWs).reverse.dropWhile isJsWs).reverse⟩

/-- `String.prototype.toLowerCase` (ASCII, which covers every value the
repository lowercases: hex colors and token names). -/
def jsToLower (s : String) : String := ⟨s.data.map Char.toLower⟩

/-- Substring scan used by `a.includes(b)`: is `needle` a prefix of some
suffix of `hay`? -/
def listIncludes (needle : List Char) (hay : List Char) : Bool :=
  match hay with
  | [] => needle.isEmpty
  | _ :: rest => needle.isPrefixOf hay || listIncludes needle rest

/-- `a.includes(b)`. -/
def jsIncludes (s sub : String) : Bool := listIncludes sub.data s.data

/-- `a.startsWith(b)`. -/
def jsStartsWith (s p : String) : Bool := p.data.isPrefixOf s.data

/-- One step of `replace(/\s+/g, '-')`: each maximal whitespace run becomes a
single `'-'`; the boolean tracks whether we are inside a run. -/
def collapseWsAux : List Char → Bool → List Char
  | [], _ => []
  | c :: rest, inRun =>
    if isJsWs c then
      if inRun then collapseWsAux rest true else '-' :: collapseWsAux rest true
    else c :: collapseWsAux rest false

/-! ## Naming-convention rule (`rules/naming-convention.ts`) -/

/-- A compiled JavaScript `RegExp`: its `test` method plus the string it
prints as (used in the diagnostic message `... does not match pattern ${pattern}`). -/
structure JsRegExp where
  test : String → Bool
  display : String

/-- `t.name.toLowerCase().replace(/\s+/g, '-').replace(/_/g, '-')` — the
suggestion emitted for a name that misses the pattern. -/
def namingSuggestion (name : String) : String :=
  ⟨(collapseWsAux (jsToLower name).data false).map (fun c => if c = '_' then '-' else c)⟩

/-- The diagnostic `ruleNamingConvention` pushes for a non-matching token. -/
def namingDiagFor (pattern : JsRegExp) (severity : Severity) (t : Token) : Diagnostic :=
  { ruleId := "naming-convention"
    message := Json.str ("Token name \"" ++ t.name ++ "\" does not match pattern " ++ pattern.display)
    severity := severity
    tokenName := Json.str t.name
    suggestion := Json.str (namingSuggestion t.name) }

/-- `ruleNamingConvention(tokens, pattern, severity)`: pushes one diagnostic
per token whose name fails `pattern.test`. -/
def ruleNamingConvention (tokens : List Token) (pattern : JsRegExp) (severity : Severity) :
    List Diagnostic :=
  match tokens with
  | [] => []
  | t :: ts =>
    if pattern.test t.name then ruleNamingConvention ts pattern severity
    else namingDiagFor pattern severity t :: ruleNamingConvention ts pattern severity

/-! ## Raw-value extraction (`adapters/codeFileAdapter.ts`)

The extraction regexes are hand-compiled to scanners over `List Char` with
JavaScript `exec`-loop semantics: scanning resumes after the end of each
match, and the alternation/optional-group backtracking of each pattern is
resolved exactly as the JS engine resolves it. -/

/-- A `{ value, line, column }` match returned by the extractors
(1-based line and column). -/
structure RawValueMatch where
  value : String
  line : Nat
  column : Nat
deriving Repr, DecidableEq

/-- Length of the longest prefix satisfying `p`. -/
def countWhile (p : Char → Bool) : List Char → Nat
  | [] => 0
  | c :: rest => if p c then countWhile p rest + 1 else 0

/-- `\b` after a word character: the next char is absent or a non-word char. -/
def wordBoundary : List Char → Bool
  | [] => true
  | c :: _ => ¬ isWordChar c

/-- Match of `#([0-9A-Fa-f]{3}|[0-9A-Fa-f]{6})\b` at the head of the list,
returning the matched length.  The JS engine tries the 3-digit alternative
first and falls back to 6 digits when the `\b` (or the digits) fail. -/
def hexTry (l : List Char) : Option Nat :=
  match l with
  | '#' :: rest =>
    let t3 := rest.take 3
    if t3.length = 3 ∧ t3.all isHexChar ∧ wordBoundary (rest.drop 3) then some 4
    else
      let t6 := rest.take 6
      if t6.length = 6 ∧ t6.all isHexChar ∧ wordBoundary (rest.drop 6) then some 7
      else none
  | _ => none

/-- `\s*\)` — returns the consumed length. -/
def wsClose (l : List Char) : Option Nat :=
  let w := countWhile isJsWs l
  match l.drop w with
  | ')' :: _ => some (w + 1)
  | _ => none

/-- `\s*,\s*[\d.]+\s*\)` — the optional alpha component together with the
closing parenthesis (the backtracking fallback drops the whole group). -/
def alphaClose (l : List Char) : Option Nat :=
  let w1 := countWhile isJsWs l
  match l.drop w1 with
  | ',' :: l1 =>
    let w2 := countWhile isJsWs l1
    let l2 := l1.drop w2
    let d := countWhile (fun c => isDigitChar c ∨ c = '.') l2
    if d = 0 then none else
      match wsClose (l2.drop d) with
      | some n => some (w1 + 1 + w2 + d + n)
      | none => none
  | _ => none

/-- `\s*\d+\s*,` — one numeric component followed by a comma. -/
def numComma (l : List Char) : Option Nat :=
  let w1 := countWhile isJsWs l
  let l1 := l.drop w1
  let d := countWhile isDigitChar l1
  if d = 0 then none else
    let l2 := l1.drop d
    let w2 := countWhile isJsWs l2
    match l2.drop w2 with
    | ',' :: _ => some (w1 + d + w2 + 1)
    | _ => none

/-- `\s*\d+(?:\s*,\s*[\d.]+)?\s*\)` — the last rgb component, the optional
alpha, and the closing parenthesis. -/
def rgbTail (l : List Char) : Option Nat :=
  let w1 := countWhile isJsWs l
  let l1 := l.drop w1
  let d := countWhile isDigitChar l1
  if d = 0 then none else
    let l2 := l1.drop d
    match alphaClose l2 with
    | some n => some (w1 + d + n)
    | none =>
      match wsClose l2 with
      | some n => some (w1 + d + n)
      | none => none

/-- `rgba?\(\s*\d+\s*,\s*\d+\s*,\s*\d+(?:\s*,\s*[\d.]+)?\s*\)` at the head. -/
def rgbTry (l : List Char) : Option Nat :=
  let headLen : Option Nat :=
    if jsStartsWith ⟨l⟩ "rgba(" then some 5
    else if jsStartsWith ⟨l⟩ "rgb(" then some 4
    else none
  match headLen with
  | none => none
  | some h =>
    let r0 := l.drop h
    match numComma r0 with
    | none => none
    | some n1 =>
      match numComma (r0.drop n1) with
      | none => none
      | some n2 =>
        match rgbTail ((r0.drop n1).drop n2) with
        | none => none
        | some n3 => some (h + n1 + n2 + n3)

/-- `\s*\d+%\s*,` — a percentage component followed by a comma. -/
def pctComma (l : List Char) : Option Nat :=
  let w1 := countWhile isJsWs l
  let l1 := l.drop w1
  let d := countWhile isDigitChar l1
  if d = 0 then none else
    match l1.drop d with
    | '%' :: l2 =>
      let w2 := countWhile isJsWs l2
      match l2.drop w2 with
      | ',' :: _ => some (w1 + d + 1 + w2 + 1)
      | _ => none
    | _ => none

/-- `\s*\d+%(?:\s*,\s*[\d.]+)?\s*\)` — the last hsl component. -/
def hslTail (l : List Char) : Option Nat :=
  let w1 := countWhile isJsWs l
  let l1 := l.drop w1
  let d := countWhile isDigitChar l1
  if d = 0 then none else
    match l1.drop d with
    | '%' :: l2 =>
      match alphaClose l2 with
      | some n => some (w1 + d + 1 + n)
      | none =>
        match wsClose l2 with
        | some n => some (w1 + d + 1 + n)
        | none => none
    | _ => none

/-- `hsla?\(\s*\d+\s*,\s*\d+%\s*,\s*\d+%(?:\s*,\s*[\d.]+)?\s*\)` at the head. -/
def hslTry (l : List Char) : Option Nat :=
  let headLen : Option Nat :=
    if jsStartsWith ⟨l⟩ "hsla(" then some 5
    else if jsStartsWith ⟨l⟩ "hsl(" then some 4
    else none
  match headLen with
  | none => none
  | some h =>
    let r0 := l.drop h
    match numComma r0 with
    | none => none
    | some n1 =>
      match pctComma (r0.drop n1) with
      | none => none
      | some n2 =>
        match hslTail ((r0.drop n1).drop n2) with
        | none => none
        | some n3 => some (h + n1 + n2 + n3)

/-- `exec` loop of a `/g` regex over one line: at each position try a match;
a match of length `n` is emitted with its 1-based column and scanning resumes
after its end (`skip` counts the remaining characters to jump over). -/
def scanWith (tryMatch : List Char → Option Nat) : List Char → Nat → Nat → List (String × Nat)
  | [], _, _ => []
  | c :: rest, col, skip =>
    match skip with
    | n + 1 => scanWith tryMatch rest (col + 1) n
    | 0 =>
      match tryMatch (c :: rest) with
      | some n => (⟨(c :: rest).take n⟩, col) :: scanWith tryMatch rest (col + 1) (n - 1)
      | none => scanWith tryMatch rest (col + 1) 0

/-- `content.split('\n')`. -/
def splitLinesAux : List Char → List Char → List String
  | [], acc => [⟨acc.reverse⟩]
  | c :: rest, acc =>
    if c = '\n' then (⟨acc.reverse⟩ : String) :: splitLinesAux rest []
    else splitLinesAux rest (c :: acc)

/-- `content.split('\n')`. -/
def jsSplitLines (s : String) : List String := splitLinesAux s.data []

/-- A line is skipped when, after trimming, it starts with `//` or `*`. -/
def skipCommentLine (line : String) : Bool :=
  jsStartsWith (jsTrim line) "//" || jsStartsWith (jsTrim line) "*"

/-- `extractRawColors(content)`: per non-comment line, all hex matches, then
all rgb/rgba matches, then all hsl/hsla matches, with 1-based line/column. -/
def extractRawColors (content : String) : List RawValueMatch :=
  (jsSplitLines content).enum.flatMap fun p =>
    if skipCommentLine p.2 then []
    else
      (scanWith hexTry p.2.data 1 0 ++ scanWith rgbTry p.2.data 1 0
        ++ scanWith hslTry p.2.data 1 0).map fun m =>
        { value := m.1, line := p.1 + 1, column := m.2 }

/-- Match of `\b(\d+(?:\.\d+)?)px\b` at the head, given the preceding
character (`none` = start of line) for the leading word boundary. -/
def pxTry (prev : Option Char) (l : List Char) : Option Nat :=
  if (match prev with | some p => isWordChar p | none => false) then none
  else
    let d := countWhile isDigitChar l
    if d = 0 then none else
      let l1 := l.drop d
      let fracLen :=
        match l1 with
        | '.' :: l2 => let f := countWhile isDigitChar l2; if f = 0 then 0 else 1 + f
        | _ => 0
      match l1.drop fracLen with
      | 'p' :: 'x' :: tail => if wordBoundary tail then some (d + fracLen + 2) else none
      | _ => none

/-- `exec` loop for the pixel pattern, tracking the previous character for
the leading `\b`. -/
def scanPx : List Char → Option Char → Nat → Nat → List (String × Nat)
  | [], _, _, _ => []
  | c :: rest, prev, col, skip =>
    match skip with
    | n + 1 => scanPx rest (some c) (col + 1) n
    | 0 =>
      match pxTry prev (c :: rest) with
      | some n => (⟨(c :: rest).take n⟩, col) :: scanPx rest (some c) (col + 1) (n - 1)
      | none => scanPx rest (some c) (col + 1) 0

/-- `extractRawPixels(content)`: bare `px` literals, skipping comment lines,
lines with `var(` or `--`, and matches preceded (within 20 chars) by `--` or
`token`. -/
def extractRawPixels (content : String) : List RawValueMatch :=
  (jsSplitLines content).enum.flatMap fun p =>
    if skipCommentLine p.2 then []
    else if jsIncludes p.2 "var(" || jsIncludes p.2 "--" then []
    else
      (scanPx p.2.data none 1 0).filterMap fun m =>
        let idx := m.2 - 1
        let beforeMatch : String := ⟨(p.2.data.take idx).drop (idx - 20)⟩
        if jsIncludes beforeMatch "--" || jsIncludes beforeMatch "token" then none
        else some { value := m.1, line := p.1 + 1, column := m.2 }

/-! ## Static rule engine (`engine/staticRunner.ts`)

`Token.rawValue` is modelled as a string (the shape the token adapters
produce for the color and spacing tokens these rules consume), so the
`typeof rawValue === 'number'` branch of the pixel rule is constantly false
and `String(rawValue)` is the identity. -/

/-- Maximal digit runs of a string, `value.match(/\d+/g)` (as a possibly
empty list instead of `null`). -/
def digitRunsAux : List Char → List Char → List String
  | [], acc => if acc.isEmpty then [] else [⟨acc.reverse⟩]
  | c :: rest, acc =>
    if isDigitChar c then digitRunsAux rest (c :: acc)
    else if acc.isEmpty then digitRunsAux rest []
    else (⟨acc.reverse⟩ : String) :: digitRunsAux rest []

/-- `value.match(/\d+/g)`. -/
def digitRuns (s : String) : List String := digitRunsAux s.data []

/-- `normalizeColorValue(value)`: hex lowercased; `rgb…` with at least three
digit runs collapsed to `rgb(r,g,b)` (alpha dropped); anything else
lowercased. -/
def normalizeColorValue (value : String) : String :=
  if jsStartsWith value "#" then jsToLower value
  else if jsStartsWith value "rgb" then
    match digitRuns value with
    | a :: b :: c :: _ => "rgb(" ++ a ++ "," ++ b ++ "," ++ c ++ ")"
    | _ => jsToLower value
  else jsToLower value

/-- `findClosestColorToken(colorValue, tokens)`: the first token's name, or
`'color.primary'` when the list is empty — the color value is ignored. -/
def findClosestColorToken (colorValue : String) (tokens : List Token) : String :=
  match tokens with
  | t :: _ => t.name
  | [] => "color.primary"

/-- One insertion into the `Map<string, Token[]>` of color tokens: append to
the bucket of the key, creating the bucket when absent. -/
def addToColorMap : List (String × List Token) → String → Token → List (String × List Token)
  | [], k, t => [(k, [t])]
  | (k', ts) :: rest, k, t =>
    if k' = k then (k', ts ++ [t]) :: rest
    else (k', ts) :: addToColorMap rest k t

/-- The `colorTokenMap` built by `detectRawColors`, keyed by normalized
raw value. -/
def buildColorTokenMap (colorTokens : List Token) : List (String × List Token) :=
  colorTokens.foldl (fun m t => addToColorMap m (normalizeColorValue t.rawValue) t) []

/-- `Map.get`. -/
def colorMapGet : List (String × List Token) → String → Option (List Token)
  | [], _ => none
  | (k', ts) :: rest, k => if k' = k then some ts else colorMapGet rest k

/-- `suggestedToken.replace(/\./g, '-')`. -/
def dotsToHyphens (s : String) : String :=
  ⟨s.data.map fun c => if c = '.' then '-' else c⟩

/-- `line.replace(target, replacement)` with a string pattern: first
occurrence only. -/
def replaceFirstAux (needle repl : List Char) : List Char → List Char
  | [] => []
  | c :: rest =>
    if needle.isPrefixOf (c :: rest) then repl ++ (c :: rest).drop needle.length
    else c :: replaceFirstAux needle repl rest

/-- `s.replace(target, replacement)` (string pattern, first occurrence). -/
def jsReplaceFirst (s target repl : String) : String :=
  ⟨replaceFirstAux target.data repl.data s.data⟩

/-- `lines.join('\n')`. -/
def joinLines : List String → String
  | [] => ""
  | [l] => l
  | l :: rest => l ++ "\n" ++ joinLines rest

/-- `generateFixedCode(originalContent, match, suggestedToken)`: rewrite the
matched line, using `var(--…)` for CSS-looking lines and `token('…')`
otherwise. -/
def generateFixedCode (originalContent : String) (m : RawValueMatch) (suggestedTok : String) :
    String :=
  let lines := jsSplitLines originalContent
  let lineIndex := m.line - 1
  match lines.get? lineIndex with
  | none => originalContent
  | some line =>
    if line = "" then originalContent
    else
      let isCSS := jsIncludes line ":" && jsIncludes line ";"
      let replacement :=
        if isCSS then "var(--" ++ dotsToHyphens suggestedTok ++ ")"
        else "token(\x27" ++ suggestedTok ++ "\x27)"
      joinLines (lines.set lineIndex (jsReplaceFirst line m.value replacement))

/-- `detectRawColors(codeFiles, tokens, severity)`: flag every extracted
color literal whose normalized value matches no registered color token. -/
def detectRawColors (codeFiles : List CodeFile) (tokens : List Token) (severity : Severity) :
    List Diagnostic :=
  let colorTokens := tokens.filter fun t => t.type = "color"
  let colorTokenMap := buildColorTokenMap colorTokens
  codeFiles.flatMap fun codeFile =>
    (extractRawColors codeFile.content).filterMap fun color =>
      let normalizedValue := normalizeColorValue color.value
      match colorMapGet colorTokenMap normalizedValue with
      | some (_ :: _) => none
      | _ =>
        some
          { ruleId := "raw-color"
            message := Json.str ("Raw color " ++ color.value ++ " should use a design token")
            severity := severity
            file := Json.str codeFile.path
            line := Json.num color.line
            problem := Json.str ("raw color " ++ color.value)
            reason := Json.str
              "Design tokens should be used instead of raw color values for consistency"
            suggestedToken := Json.str (findClosestColorToken color.value colorTokens)
            fixedCode := Json.str
              (generateFixedCode codeFile.content color (findClosestColorToken color.value colorTokens))
            impact := Json.str "Medium" }

/-- `parseFloat` on the strings this code feeds it: optional sign, digits
with optional fraction and exponent; `none` models `NaN` (and the infinite
values, which compare identically in every use below). -/
def jsParseFloat (s : String) : Option ℚ :=
  let l := s.data.dropWhile isJsWs
  let (sign, l) : ℚ × List Char :=
    match l with
    | '-' :: rest => (-1, rest)
    | '+' :: rest => (1, rest)
    | _ => (1, l)
  let d := countWhile isDigitChar l
  let intDigits := l.take d
  let l1 := l.drop d
  let (fracVal, fracLen) : ℚ × Nat :=
    match l1 with
    | '.' :: l2 =>
      let f := countWhile isDigitChar l2
      (digitsVal (l2.take f) / (10 : ℚ) ^ f, 1 + f)
    | _ => (0, 0)
  if d = 0 ∧ fracLen ≤ 1 then none
  else
    let base := digitsVal intDigits + fracVal
    let l3 := l1.drop fracLen
    let expVal : Int :=
      match l3 with
      | 'e' :: l4 => expDigits l4
      | 'E' :: l4 => expDigits l4
      | _ => 0
    some (sign * base * (10 : ℚ) ^ expVal)
where
  digitsVal (ds : List Char) : ℚ :=
    ds.foldl (fun acc c => acc * 10 + ((c.toNat - '0'.toNat : Nat) : ℚ)) 0
  expDigits (l : List Char) : Int :=
    let (esign, l') : Int × List Char :=
      match l with
      | '-' :: rest => (-1, rest)
      | '+' :: rest => (1, rest)
      | _ => (1, l)
    let k := countWhile isDigitChar l'
    if k = 0 then 0
    else esign * Int.ofNat ((l'.take k).foldl (fun acc c => acc * 10 + (c.toNat - '0'.toNat)) 0)

/-- The numeric value of a spacing token:
`typeof rawValue === 'number' ? rawValue : parseFloat(String(rawValue).replace('px',''))`
(string raw values, so always the `parseFloat` branch). -/
def spacingTokenValue (t : Token) : Option ℚ :=
  jsParseFloat (jsReplaceFirst t.rawValue "px" "")

/-- `|a - b| < eps` with `NaN` (`none`) comparing false, as in JS. -/
def absDiffLt (a b : Option ℚ) (eps : ℚ) : Bool :=
  match a, b with
  | some x, some y => |x - y| < eps
  | _, _ => false

/-- `findMatchingSpacingToken(pixelValue, tokens)`: first token within 0.1. -/
def findMatchingSpacingToken (pixelValue : Option ℚ) : List Token → Option Token
  | [] => none
  | t :: rest =>
    if absDiffLt (spacingTokenValue t) pixelValue (1 / 10) then some t
    else findMatchingSpacingToken pixelValue rest

/-- `diff < minDiff` where `diff` may be `NaN` (`none` on the left) and
`minDiff` starts as `Infinity` (`none` on the right). -/
def diffLt (diff : Option ℚ) (minDiff : Option ℚ) : Bool :=
  match diff with
  | none => false
  | some d =>
    match minDiff with
    | none => true
    | some m => d < m

/-- `|tokenValue - pixelValue|`, `NaN` when either side is. -/
def absDiff (a b : Option ℚ) : Option ℚ :=
  match a, b with
  | some x, some y => some |x - y|
  | _, _ => none

/-- Loop of `findClosestSpacingToken`. -/
def findClosestSpacingTokenGo (pixelValue : Option ℚ) :
    List Token → Option Token → Option ℚ → String
  | [], closest, _ =>
    match closest with
    | some t => t.name
    | none => "spacing.md"
  | t :: rest, closest, minDiff =>
    let diff := absDiff (spacingTokenValue t) pixelValue
    if diffLt diff minDiff then findClosestSpacingTokenGo pixelValue rest (some t) diff
    else findClosestSpacingTokenGo pixelValue rest closest minDiff

/-- `findClosestSpacingToken(pixelValue, tokens)`: closest token by absolute
difference, `'spacing.md'` when there is none. -/
def findClosestSpacingToken (pixelValue : Option ℚ) (tokens : List Token) : String :=
  findClosestSpacingTokenGo pixelValue tokens none none

/-- `detectRawPixels(codeFiles, tokens, severity)`. -/
def detectRawPixels (codeFiles : List CodeFile) (tokens : List Token) (severity : Severity) :
    List Diagnostic :=
  let spacingTokens := tokens.filter fun t =>
    t.type = "spacing" ∨ t.type = "size" ∨ jsIncludes t.name "spacing" ∨ jsIncludes t.name "size"
  codeFiles.flatMap fun codeFile =>
    (extractRawPixels codeFile.content).filterMap fun pixel =>
      let pixelValue := jsParseFloat pixel.value
      match findMatchingSpacingToken pixelValue spacingTokens with
      | some _ => none
      | none =>
        some
          { ruleId := "raw-pixel"
            message := Json.str ("Raw pixel value " ++ pixel.value ++ " should use a design token")
            severity := severity
            file := Json.str codeFile.path
            line := Json.num pixel.line
            problem := Json.str ("raw pixel " ++ pixel.value)
            reason := Json.str
              "Design tokens should be used instead of raw pixel values for consistency"
            suggestedToken := Json.str (findClosestSpacingToken pixelValue spacingTokens)
            fixedCode := Json.str
              (generateFixedCode codeFile.content pixel (findClosestSpacingToken pixelValue spacingTokens))
            impact := Json.str "Medium" }

/-- Config entry for `naming-convention`. -/
structure NamingRuleCfg where
  severity : Severity
  pattern : String

/-- Config entry for `raw-color` / `raw-pixel`. -/
structure RawRuleCfg where
  severity : Severity
  enabled : Bool

/-- `StaticRuleConfig`: a rule is disabled when its entry is absent. -/
structure StaticRuleConfig where
  namingConvention : Option NamingRuleCfg := none
  rawColor : Option RawRuleCfg := none
  rawPixel : Option RawRuleCfg := none

/-- The raw-color and raw-pixel parts of `runStaticRules` (each runs only
when configured, enabled and `codeFiles` was passed). -/
def staticColorPixelDiags (tokens : List Token) (config : StaticRuleConfig)
    (codeFiles : Option (List CodeFile)) : List Diagnostic :=
  (match config.rawColor, codeFiles with
   | some cfg, some files => if cfg.enabled then detectRawColors files tokens cfg.severity else []
   | _, _ => []) ++
  (match config.rawPixel, codeFiles with
   | some cfg, some files => if cfg.enabled then detectRawPixels files tokens cfg.severity else []
   | _, _ => [])

/-- `runStaticRules(tokens, config, codeFiles)`.  `new RegExp(pattern)` is the
JS builtin, passed in as `newRegExp`; it can throw, and `runStaticRules`
contains no try/catch, so a compilation error escapes before any other rule
runs (`Except.error`). -/
def runStaticRules (newRegExp : String → Except String JsRegExp) (tokens : List Token)
    (config : StaticRuleConfig) (codeFiles : Option (List CodeFile)) :
    Except String (List Diagnostic) :=
  match config.namingConvention with
  | some ruleCfg =>
    match newRegExp ruleCfg.pattern with
    | .error e => .error e
    | .ok pattern =>
      .ok (ruleNamingConvention tokens pattern ruleCfg.severity
        ++ staticColorPixelDiags tokens config codeFiles)
  | none => .ok (staticColorPixelDiags tokens config codeFiles)

/-- Nonempty-bucket predicate for the color token map. -/
def mapHasBucket (m : List (String × List Token)) (k : String) : Prop :=
  ∃ ts, colorMapGet m k = some ts ∧ ts ≠ []

/-! ### Concrete scenarios for the static rules -/

/-- One CSS file with an unmatched literal (`#00ff11`) and a matched one
(`#FF0000`). -/
def demoCodeFiles : List CodeFile := [{ path := "a.css", content := "x: #00ff11;\ny: #FF0000;" }]

/-- One registered color token whose raw value is the lowercase of the
second literal. -/
def demoTokens : List Token := [{ type := "color", name := "brand.red", rawValue := "#ff0000" }]

/-- The one diagnostic `detectRawColors` produces on the demo scenario. -/
def demoRawColorDiag : Diagnostic :=
  { ruleId := "raw-color"
    message := Json.str "Raw color #00ff11 should use a design token"
    severity := Severity.warn
    file := Json.str "a.css"
    line := Json.num 1
    problem := Json.str "raw color #00ff11"
    reason := Json.str "Design tokens should be used instead of raw color values for consistency"
    suggestedToken := Json.str "brand.red"
    fixedCode := Json.str "x: var(--brand-red);\ny: #FF0000;"
    impact := Json.str "Medium" }

/-- A decidable stand-in for a compiled naming regex (its `test` is the only
thing `ruleNamingConvention` consults). -/
def demoRegExp : JsRegExp :=
  { test := fun s => jsIncludes s ".", display := "/^([a-z]+\\.)+[a-z0-9-]+$/" }

/-- Demo token list for the naming rule: one matching, one non-matching name. -/
def demoNamingTokens : List Token :=
  [ { type := "color", name := "color.primary", rawValue := "#ff0000" },
    { type := "color", name := "Color Primary", rawValue := "#fff" } ]

/-! ### C6: `runStaticRules` does not isolate rule failures -/

/-- A `new RegExp` behaviour that rejects the pattern `"("` (JavaScript's
`SyntaxError: Invalid regular expression`) and accepts everything else. -/
def badRegexCompile : String → Except String JsRegExp := fun p =>
  if p = "(" then Except.error "Invalid regular expression: Unterminated group"
  else Except.ok { test := fun _ => true, display := "/" ++ p ++ "/" }

/-- A config enabling both the naming rule (with the invalid pattern) and the
raw-color rule. -/
def demoStaticConfig : StaticRuleConfig :=
  { namingConvention := some { severity := Severity.error, pattern := "(" }
    rawColor := some { severity := Severity.warn, enabled := true } }

/-! ## AI rule runner (`engine/aiRunner.ts`)

The runner is deterministic given the behaviour of the JavaScript runtime
and the network, which are modelled as an environment: a stream of call
outcomes (the n-th LLM request of the run yields `outcomes n`) and the
`JSON.parse` builtin.  The request body (prompt, model id) does not
influence the abstract outcome stream.  A rule's Zod schema is carried as
its `parse` function. -/

/-- The two provider families. -/
inductive AIProvider where
  | openai | gemini
deriving Repr, DecidableEq

/-- The shape of a JavaScript exception value as probed by the error
handling: the optional properties read by the catch blocks, plus the
`JSON.stringify` fallback rendering. -/
structure JsErrorObj where
  errorMessage : Option String := none
  errorCode : Option String := none
  status : Option String := none
  message : Option String := none
  code : Option String := none
  stringified : String := "\x7b\x7d"
deriving Repr, DecidableEq

/-- A thrown JavaScript value: an object or a plain string. -/
inductive JsError where
  | obj (e : JsErrorObj)
  | str (s : String)
deriving Repr, DecidableEq

/-- `new Error(msg)`. -/
def JsError.ofMessage (msg : String) : JsError := .obj { message := some msg }

/-- Property access `e.message`. -/
def JsError.jsMessage : JsError → Option String
  | .obj e => e.message
  | .str _ => none

/-- String interpolation of a possibly-undefined value. -/
def templateStr (o : Option String) : String := o.getD "undefined"

/-- The message of `new Error(x)` when `x` may be undefined. -/
def newErrorFrom (o : Option String) : String := o.getD ""

/-- JS truthiness of an optional string (absent or empty is falsy). -/
def jsStrTruthy (o : Option String) : Bool :=
  match o with
  | some s => s ≠ ""
  | none => false

/-- The `errorMsg`/`errorCode` extraction of the OpenAI catch block:
`error.error.message`, then `error.status`, then `error.message`, then a
string error, then `JSON.stringify(error)`. -/
def openaiErrorInfo (err : JsError) : String × String :=
  match err with
  | .str s => (s, "")
  | .obj e =>
    if jsStrTruthy e.errorMessage then (e.errorMessage.getD "", e.errorCode.getD "")
    else if jsStrTruthy e.status then (e.message.getD "", e.status.getD "")
    else if jsStrTruthy e.message then (e.message.getD "", e.code.getD "")
    else (e.stringified, "")

/-- The Gemini extraction: the same chain without the `error.status` case. -/
def geminiErrorInfo (err : JsError) : String × String :=
  match err with
  | .str s => (s, "")
  | .obj e =>
    if jsStrTruthy e.errorMessage then (e.errorMessage.getD "", e.errorCode.getD "")
    else if jsStrTruthy e.message then (e.message.getD "", e.code.getD "")
    else (e.stringified, "")

/-- Quota / rate-limit classification (both providers). -/
def isQuotaErrorMsg (errorMsg errorCode : String) : Bool :=
  errorCode = "429" || jsIncludes errorMsg "429" || jsIncludes errorMsg "quota" ||
  jsIncludes errorMsg "exceeded" || jsIncludes errorMsg "rate limit"

/-- Model-not-found classification of the OpenAI loop. -/
def openaiIsModelNotFound (errorMsg : String) : Bool :=
  jsIncludes errorMsg "not found" || jsIncludes errorMsg "not available" ||
  jsIncludes errorMsg "invalid_model" || jsIncludes errorMsg "model_not_found"

/-- Model-not-found classification of the Gemini loop. -/
def geminiIsModelNotFound (errorMsg : String) : Bool :=
  jsIncludes errorMsg "404" || jsIncludes errorMsg "not found" ||
  jsIncludes errorMsg "not available" || jsIncludes errorMsg "not supported" ||
  jsIncludes errorMsg "NOT_FOUND"

/-- A request error the OpenAI loop always survives by advancing to the next
candidate model. -/
def openaiTransient (err : JsError) : Bool :=
  let info := openaiErrorInfo err
  isQuotaErrorMsg info.1 info.2 || openaiIsModelNotFound info.1

/-- A request error the Gemini loop always survives by advancing to the next
candidate model. -/
def geminiTransient (err : JsError) : Bool :=
  let info := geminiErrorInfo err
  isQuotaErrorMsg info.1 info.2 || geminiIsModelNotFound info.1

/-- The catch block of one OpenAI model attempt: `none` = log and continue
with the next candidate model, `some e` = rethrow out of the loop (pinned
model with a non-transient error). -/
def openaiCatchHandler (modelName : Option String) (currentModel : String) (err : JsError) :
    Option JsError :=
  if openaiTransient err then none
  else
    match modelName with
    | some _ =>
      some (JsError.ofMessage ("モデル " ++ currentModel ++ " でエラー: " ++ (openaiErrorInfo err).1))
    | none => none

/-- The catch block of one Gemini model attempt. -/
def geminiCatchHandler (modelName : Option String) (currentModel : String) (err : JsError) :
    Option JsError :=
  if geminiTransient err then none
  else
    match modelName with
    | some _ =>
      some (JsError.ofMessage ("モデル " ++ currentModel ++ " でエラー: " ++ (geminiErrorInfo err).1))
    | none => none

/-- Outcome of one LLM request: the promise resolved with a content payload
(`none` = null/absent) or rejected with a thrown value. -/
inductive CallOutcome where
  | returned (content : Option String)
  | threw (e : JsError)

/-- The environment of a `runAIRules` invocation: the credential environment
variables, the outcome of the n-th request issued during the run, and the
`JSON.parse` builtin. -/
structure AIEnv where
  openaiKey : Option String := none
  geminiKey : Option String := none
  outcomes : Nat → CallOutcome
  jsonParse : String → Except JsError Json

/-- ` ``` `-fence stripping of the Gemini branch:
`text.replace(/^```json\n/, '').replace(/\n```$/, '')`. -/
def stripJsonFences (s : String) : String :=
  let l := s.data
  let l1 := if ("```json\n".data).isPrefixOf l then l.drop 8 else l
  let l2 := if ("\n```".data).isSuffixOf l1 then l1.take (l1.length - 4) else l1
  ⟨l2⟩

/-- The default OpenAI fallback models, in order of preference. -/
def openaiDefaultModels : List String :=
  ["gpt-4o", "gpt-4-turbo", "gpt-4-turbo-preview", "gpt-3.5-turbo"]

/-- The default Gemini fallback models, in order of preference. -/
def geminiDefaultModels : List String :=
  ["gemini-3-pro-preview", "gemini-2.5-flash", "gemini-1.5-flash", "gemini-pro"]

/-- `modelName ? [modelName] : defaults`, normalised: an empty string is
falsy and selects the defaults. -/
def normPinned (modelName : Option String) : Option String :=
  match modelName with
  | some s => if s = "" then none else some s
  | none => none

/-- The aggregate error message thrown when every OpenAI candidate model has
been tried without success. -/
def openaiExhaustMsg : Option String → String
  | some mn => "指定されたモデル " ++ mn ++ " の試行に失敗しました"
  | none => "すべてのOpenAIモデルの試行に失敗しました"

/-- The OpenAI model-fallback loop of one rule.  Each iteration issues one
request (consuming one outcome); the exhausted-list case is the
`if (!modelSuccess) throw` after the loop. -/
def openaiModelLoop (env : AIEnv) (modelName : Option String) :
    List String → Nat → Except JsError Json × Nat
  | [], ctr => (.error (JsError.ofMessage (openaiExhaustMsg modelName)), ctr)
  | m :: rest, ctr =>
    match env.outcomes ctr with
    | .threw e =>
      (match openaiCatchHandler modelName m e with
       | none => openaiModelLoop env modelName rest (ctr + 1)
       | some thrown => (.error thrown, ctr + 1))
    | .returned content =>
      if ¬ jsStrTruthy content then
        match modelName with
        | some _ =>
          (match openaiCatchHandler modelName m
              (JsError.ofMessage ("モデル " ++ m ++ " が空のレスポンスを返しました")) with
           | none => openaiModelLoop env modelName rest (ctr + 1)
           | some thrown => (.error thrown, ctr + 1))
        | none => openaiModelLoop env modelName rest (ctr + 1)
      else
        match env.jsonParse (content.getD "") with
        | .error pe =>
          (match openaiCatchHandler modelName m pe with
           | none => openaiModelLoop env modelName rest (ctr + 1)
           | some thrown => (.error thrown, ctr + 1))
        | .ok j => (.ok j, ctr + 1)

/-- The Gemini model-fallback loop, threading `lastError`; a fence-stripped
empty text throws `'Empty response from Gemini API'` into the same catch. -/
def geminiModelLoop (env : AIEnv) (modelName : Option String) :
    List String → Option JsError → Nat → Except JsError Json × Nat
  | [], lastError, ctr =>
    (match lastError with
     | some le =>
       .error (JsError.ofMessage (match modelName with
         | some mn =>
           "指定されたモデル " ++ mn ++ " の試行に失敗しました: " ++ templateStr (JsError.jsMessage le)
         | none => newErrorFrom (JsError.jsMessage le)))
     | none => .ok Json.undef, ctr)
  | m :: rest, lastError, ctr =>
    match env.outcomes ctr with
    | .threw e =>
      (match geminiCatchHandler modelName m e with
       | none => geminiModelLoop env modelName rest (some e) (ctr + 1)
       | some thrown => (.error thrown, ctr + 1))
    | .returned t =>
      let text := stripJsonFences (t.getD "")
      if text = "" then
        (match geminiCatchHandler modelName m
            (JsError.ofMessage "Empty response from Gemini API") with
         | none =>
           geminiModelLoop env modelName rest
             (some (JsError.ofMessage "Empty response from Gemini API")) (ctr + 1)
         | some thrown => (.error thrown, ctr + 1))
      else
        match env.jsonParse text with
        | .error pe =>
          (match geminiCatchHandler modelName m pe with
           | none => geminiModelLoop env modelName rest (some pe) (ctr + 1)
           | some thrown => (.error thrown, ctr + 1))
        | .ok j => (.ok j, ctr + 1)

/-- An AI rule `{ id, description, severity, prompt, schema }`; `schema` is
the Zod schema's `parse` entry point. -/
structure AIRule where
  id : String
  description : String
  severity : Severity
  prompt : LintContext → String
  schema : Json → Except JsError Json

/-- JS truthiness of a runtime value. -/
def jsTruthy : Json → Bool
  | .undef => false
  | .null => false
  | .bool b => b
  | .num n => n ≠ 0
  | .str s => s ≠ ""
  | .arr _ => true
  | .obj _ => true

/-- Property access `v[k]`, `undef` when absent or not an object. -/
def jsGetField : Json → String → Json
  | .obj fields, k => (List.lookup k fields).getD Json.undef
  | _, _ => Json.undef

/-- `Array.isArray`. -/
def Json.isArr : Json → Bool
  | .arr _ => true
  | _ => false

/-- `typeof v === 'object'` (null and arrays included). -/
def typeofObject : Json → Bool
  | .null => true
  | .arr _ => true
  | .obj _ => true
  | _ => false

/-- `k in v` (evaluated only after the object guards in this code). -/
def jsHasProp : Json → String → Bool
  | .obj fields, k => (List.lookup k fields).isSome
  | _, _ => false

/-- JS `a || b`. -/
def jsOr (a b : Json) : Json := if jsTruthy a then a else b

/-- The mapping of one `issues` entry to a `Diagnostic`
(`message` from `problem || message || ''`, `line` defaulted to null). -/
def issueToDiagnostic (rule : AIRule) (issue : Json) : Diagnostic :=
  { ruleId := rule.id
    severity := rule.severity
    message := jsOr (jsGetField issue "problem") (jsOr (jsGetField issue "message") (Json.str ""))
    tokenName := jsGetField issue "tokenName"
    suggestion := jsGetField issue "suggestion"
    file := jsGetField issue "file"
    line :=
      match jsGetField issue "line" with
      | .undef => Json.null
      | v => v
    problem := jsGetField issue "problem"
    reason := jsGetField issue "reason"
    suggestedToken := jsGetField issue "suggestedToken"
    fixedCode := jsGetField issue "fixedCode"
    impact := jsGetField issue "impact" }

/-- `for (const issue of v)`: arrays iterate their elements, strings their
characters, anything else throws a TypeError. -/
def jsIterate : Json → Except JsError (List Json)
  | .arr xs => .ok xs
  | .str s => .ok (s.data.map fun c => Json.str ⟨[c]⟩)
  | _ => .error (JsError.ofMessage "issues is not iterable")

/-- `if (result.issues) { for (const issue of result.issues) push(...) }`. -/
def mapIssues (rule : AIRule) (result : Json) : Except JsError (List Diagnostic) :=
  if jsTruthy (jsGetField result "issues") then
    match jsIterate (jsGetField result "issues") with
    | .ok xs => .ok (xs.map (issueToDiagnostic rule))
    | .error e => .error e
  else .ok []

/-- The bare-array coercion step:
`if (Array.isArray(jsonContent)) jsonContent = { issues: jsonContent }`. -/
def coerceBareArray (raw : Json) : Json :=
  if raw.isArr then Json.obj [("issues", raw)] else raw

/-- The salvage guard of the schema-failure path:
`jsonContent && typeof jsonContent === 'object' && 'issues' in jsonContent &&
Array.isArray(jsonContent.issues)`. -/
def salvageCond (jsonContent : Json) : Bool :=
  jsTruthy jsonContent && typeofObject jsonContent && jsHasProp jsonContent "issues"
    && (jsGetField jsonContent "issues").isArr

/-- The post-loop pipeline of one rule: bare-array coercion, Zod validation
with the `issues`-array salvage, and the issue-to-diagnostic mapping. -/
def processParsed (rule : AIRule) (raw : Json) : Except JsError (List Diagnostic) :=
  let jsonContent := coerceBareArray raw
  match rule.schema jsonContent with
  | .ok result => mapIssues rule result
  | .error schemaError =>
    if salvageCond jsonContent then
      mapIssues rule (Json.obj [("issues", jsGetField jsonContent "issues")])
    else .error schemaError

/-- One rule's try block: the provider's model-fallback loop followed by
`processParsed`; `.error` is an exception reaching the per-rule catch.
`modelName` is expected in `normPinned` form.  Returns the updated request
counter. -/
def runOneRule (env : AIEnv) (provider : AIProvider) (modelName : Option String)
    (ctx : LintContext) (rule : AIRule) (ctr : Nat) :
    Except JsError (List Diagnostic) × Nat :=
  let loopResult :=
    match provider with
    | .openai =>
      openaiModelLoop env modelName
        (match modelName with | some mn => [mn] | none => openaiDefaultModels) ctr
    | .gemini =>
      geminiModelLoop env modelName
        (match modelName with | some mn => [mn] | none => geminiDefaultModels) none ctr
  match loopResult with
  | (.error e, ctr') => (.error e, ctr')
  | (.ok raw, ctr') =>
    match processParsed rule raw with
    | .ok ds => (.ok ds, ctr')
    | .error e => (.error e, ctr')

/-- The `for (const rule of rules)` loop: each rule's failure is caught,
logged and skipped; successes push their diagnostics in order. -/
def runAIRulesGo (env : AIEnv) (provider : AIProvider) (modelName : Option String)
    (ctx : LintContext) : List AIRule → Nat → List Diagnostic
  | [], _ => []
  | rule :: rest, ctr =>
    match runOneRule env provider modelName ctx rule ctr with
    | (.ok ds, ctr') => ds ++ runAIRulesGo env provider modelName ctx rest ctr'
    | (.error _, ctr') => runAIRulesGo env provider modelName ctx rest ctr'

/-- Provider and credential resolution of `runAIRules`: a truthy explicit key
wins with the requested provider, else `OPENAI_API_KEY`, else
`GEMINI_API_KEY`, else the (falsy) initial pair. -/
def resolveProviderKey (env : AIEnv) (apiKey : Option String) (provider : AIProvider) :
    AIProvider × Option String :=
  if jsStrTruthy apiKey then (provider, apiKey)
  else if jsStrTruthy env.openaiKey then (.openai, env.openaiKey)
  else if jsStrTruthy env.geminiKey then (.gemini, env.geminiKey)
  else (provider, apiKey)

/-- `runAIRules(tokens, rules, apiKey?, provider = 'openai', codeFiles?,
modelName?)`: key resolution, early empty return without credentials, then
the per-rule loop.  Total: no exception escapes the per-rule catch. -/
def runAIRules (env : AIEnv) (tokens : List Token) (rules : List AIRule)
    (apiKey : Option String) (provider : AIProvider)
    (codeFiles : Option (List CodeFile)) (modelName : Option String) : List Diagnostic :=
  let ctx : LintContext := { tokens := tokens, codeFiles := codeFiles }
  let resolved := resolveProviderKey env apiKey provider
  if ¬ jsStrTruthy resolved.2 then []
  else runAIRulesGo env resolved.1 (normPinned modelName) ctx rules 0

/-- Specification-side view of the rule loop: the list of per-rule outcomes,
evaluated sequentially. -/
def aiRuleResults (env : AIEnv) (provider : AIProvider) (modelName : Option String)
    (ctx : LintContext) : List AIRule → Nat → List (Except JsError (List Diagnostic))
  | [], _ => []
  | rule :: rest, ctr =>
    let r := runOneRule env provider modelName ctx rule ctr
    r.1 :: aiRuleResults env provider modelName ctx rest r.2

/-- The diagnostics a per-rule outcome contributes — nothing on failure. -/
def okDiags : Except JsError (List Diagnostic) → List Diagnostic
  | .ok ds => ds
  | .error _ => []

/-- The environment whose `JSON.parse` wraps every bare-array result into
`{ issues: … }` but is otherwise identical. -/
def wrapParsedEnv (env : AIEnv) : AIEnv :=
  { env with jsonParse := fun s => (env.jsonParse s).map coerceBareArray }

/-! ### Concrete scenarios for the AI runner -/

/-- An environment with no credentials whose calls return an empty payload. -/
def noopEnv : AIEnv :=
  { outcomes := fun _ => CallOutcome.returned none
    jsonParse := fun _ => Except.error (JsError.ofMessage "unused") }

/-- Only `OPENAI_API_KEY` set. -/
def envOpenaiKey : AIEnv := { noopEnv with openaiKey := some "sk-test" }

/-- Only `GEMINI_API_KEY` set. -/
def envGeminiKey : AIEnv := { noopEnv with geminiKey := some "g-test" }

/-- A quota error as OpenAI raises it
(`error.message` carrying both `429` and `quota`). -/
def quotaError : JsError := JsError.obj { message := some "429 You exceeded your current quota" }

/-- An environment in which every request fails with the quota error. -/
def envAllQuota : AIEnv :=
  { outcomes := fun _ => CallOutcome.threw quotaError
    jsonParse := fun _ => Except.error (JsError.ofMessage "unused") }

/-- An empty lint context. -/
def demoCtx : LintContext := { tokens := [] }

/-- A trivial AI rule (identity schema). -/
def demoAIRule : AIRule :=
  { id := "ai-demo", description := "demo", severity := Severity.warn
    prompt := fun _ => "p", schema := fun j => Except.ok j }

/-- A strict schema's rejection. -/
def schemaErrDemo : JsError := JsError.ofMessage "invalid shape"

/-- A rule whose schema rejects everything. -/
def strictDemoRule : AIRule :=
  { id := "ai-strict", description := "demo", severity := Severity.error
    prompt := fun _ => "p", schema := fun _ => Except.error schemaErrDemo }

/-- A payload the strict schema rejects that still carries a well-formed
`issues` array (plus an extra field). -/
def salvageJson : Json :=
  Json.obj [("issues", Json.arr [Json.obj [("tokenName", Json.str "color.x")]]),
            ("extra", Json.num 1)]

/-! ## Custom rule loader (`loadCustomRules`)

File system, dynamic `require` and `JSON.stringify` are environment
parameters; the loader's control flow (existence checks with `continue`,
inner try/catch around schema loading, outer try/catch per config entry) is
translated directly. -/

/-- One entry of the custom-rules configuration. -/
structure CustomRuleConfig where
  id : String
  description : String
  severity : Severity
  prompt : String
  schema : String

/-- A loaded schema object; `parseFn = none` models a value without a
function-valued `parse` property. -/
structure ZodLike where
  parseFn : Option (Json → Except JsError Json)

/-- A loaded schema module with its `schema` and `default` exports. -/
structure SchemaModule where
  schemaExport : Option ZodLike := none
  defaultExport : Option ZodLike := none

/-- The loader's environment: `fsSync.existsSync`, `fs.readFile` (utf-8),
the dynamic `require`/import of a schema module (including the ts-node/tsx
registration), `path.resolve(baseDir, ·)`, and the pretty
`JSON.stringify` of the mapped token list. -/
structure FsEnv where
  fileExists : String → Bool
  readFile : String → Except String String
  requireSchema : String → Except String SchemaModule
  resolvePath : String → String
  stringifyTokens : List Token → String

/-- `list.join(sep)`. -/
def joinSep (sep : String) : List String → String
  | [] => ""
  | [x] => x
  | x :: rest => x ++ sep ++ joinSep sep rest

/-- `s.substring(0, n)`. -/
def jsSubstringTo (s : String) (n : Nat) : String := ⟨s.data.take n⟩

/-- The prompt builder closed over a custom rule's prompt text: substitute a
`{{TOKENS}}` placeholder or append the serialized tokens, then append the
truncated code files when present. -/
def buildCustomPrompt (stringifyTokens : List Token → String) (promptText : String)
    (context : LintContext) : String :=
  let tokensContext := stringifyTokens context.tokens
  let finalPrompt :=
    if jsIncludes promptText "\x7b\x7bTOKENS\x7d\x7d" then
      jsReplaceFirst promptText "\x7b\x7bTOKENS\x7d\x7d" tokensContext
    else promptText ++ "\n\nTokens:\n" ++ tokensContext
  match context.codeFiles with
  | some files =>
    if files.length > 0 then
      finalPrompt ++ "\n\nCode Files:\n" ++
        joinSep "\n\n"
          (files.map fun f => "File: " ++ f.path ++ "\n" ++ jsSubstringTo f.content 500 ++ "...")
    else finalPrompt
  | none => finalPrompt

/-- Schema extraction: pick the first truthy export, then require a
function-valued `parse`. -/
def checkZod (z : ZodLike) : Except String (Json → Except JsError Json) :=
  match z.parseFn with
  | some f => .ok f
  | none => .error "スキーマはZodスキーマである必要があります。"

/-- The body of the inner try around dynamic schema loading. -/
def loadSchemaFn (env : FsEnv) (schemaPath : String) :
    Except String (Json → Except JsError Json) :=
  match env.requireSchema schemaPath with
  | .error e => .error e
  | .ok m =>
    match m.schemaExport with
    | some z => checkZod z
    | none =>
      match m.defaultExport with
      | some z => checkZod z
      | none =>
        .error "スキーマファイルは`export const schema`または`export default schema`でスキーマをエクスポートする必要があります。"

/-- One config entry of `loadCustomRules`: `.ok none` models the `continue`
paths (missing prompt file, missing schema file, schema-load error caught by
the inner catch); `.error` models an exception reaching the outer per-entry
catch (a `fs.readFile` rejection). -/
def loadOneCustomRule (env : FsEnv) (cfg : CustomRuleConfig) : Except String (Option AIRule) :=
  let promptPath := env.resolvePath cfg.prompt
  if ¬ env.fileExists promptPath then .ok none
  else
    match env.readFile promptPath with
    | .error e => .error e
    | .ok promptText =>
      let schemaPath := env.resolvePath cfg.schema
      if ¬ env.fileExists schemaPath then .ok none
      else
        match loadSchemaFn env schemaPath with
        | .error _ => .ok none
        | .ok parseFn =>
          .ok (some
            { id := cfg.id
              description := cfg.description
              severity := cfg.severity
              prompt := buildCustomPrompt env.stringifyTokens promptText
              schema := parseFn })

/-- The `for (const config of customRulesConfig)` loop: the outer catch of
each entry logs and continues, so both skip and exception paths drop the
entry and move on. -/
def loadCustomRulesGo (env : FsEnv) : List CustomRuleConfig → List AIRule → List AIRule
  | [], acc => acc
  | cfg :: rest, acc =>
    match loadOneCustomRule env cfg with
    | .ok (some r) => loadCustomRulesGo env rest (acc ++ [r])
    | .ok none => loadCustomRulesGo env rest acc
    | .error _ => loadCustomRulesGo env rest acc

/-- `loadCustomRules(customRulesConfig, baseDir)`: the returned promise — it
always resolves, because every failure path inside the loop is caught. -/
def loadCustomRules (env : FsEnv) (configs : List CustomRuleConfig) :
    Except String (List AIRule) :=
  .ok (loadCustomRulesGo env configs [])

/-! ### Theorems about the custom rule loader -/

/-- A config entry whose prompt file is missing. -/
def missingPromptCfg : CustomRuleConfig :=
  { id := "custom-1", description := "d1", severity := Severity.error,
    prompt := "rules/missing.txt", schema := "rules/s2.ts" }

/-- A config entry whose schema file is missing. -/
def missingSchemaCfg : CustomRuleConfig :=
  { id := "custom-3", description := "d3", severity := Severity.warn,
    prompt := "rules/p2.txt", schema := "rules/missing-schema.ts" }

/-- A fully loadable config entry. -/
def goodCfg : CustomRuleConfig :=
  { id := "custom-2", description := "d2", severity := Severity.warn,
    prompt := "rules/p2.txt", schema := "rules/s2.ts" }

/-- A file system with exactly the prompt file `rules/p2.txt` and the schema
file `rules/s2.ts` (exporting a schema with a `parse` function). -/
def demoFs : FsEnv :=
  { fileExists := fun p => p = "rules/p2.txt" || p = "rules/s2.ts"
    readFile := fun p => if p = "rules/p2.txt" then .ok "Check tokens." else .error "ENOENT"
    requireSchema := fun p =>
      if p = "rules/s2.ts" then
        .ok { schemaExport := some { parseFn := some fun j => Except.ok j } }
      else .error "module not found"
    resolvePath := fun p => p
    stringifyTokens := fun _ => "[]" }

/-! ## Theorems about the static rules -/

/-- Every character produced by the whitespace-collapsing pass is either the
replacement hyphen or a non-whitespace character of the input. -/
theorem collapseWsAux_mem (l : List Char) :
    ∀ b, ∀ c ∈ collapseWsAux l b, c = '-' ∨ isJsWs c = false := by
  induction l with
  | nil => intro b c hc; simp [collapseWsAux] at hc
  | cons a rest ih =>
    intro b c hc
    by_cases ha : isJsWs a
    · cases b with
      | true => simpa [collapseWsAux, ha] using ih true c (by simpa [collapseWsAux, ha] using hc)
      | false =>
        simp [collapseWsAux, ha] at hc
        rcases hc with h | h
        · exact Or.inl h
        · exact ih true c h
    · simp [collapseWsAux, ha] at hc
      rcases hc with h | h
      · subst h; exact Or.inr (by simpa using ha)
      · exact ih false c h

/-- No character of a naming suggestion is an underscore or whitespace. -/
theorem namingSuggestion_clean (name : String) :
    ∀ c ∈ (namingSuggestion name).data, c ≠ '_' ∧ isJsWs c = false := by
  intro c hc
  have hc' : c ∈ (collapseWsAux (jsToLower name).data false).map
      (fun c => if c = '_' then '-' else c) := hc
  rcases List.mem_map.mp hc' with ⟨a, ha, hfa⟩
  have hmem := collapseWsAux_mem (jsToLower name).data false a ha
  by_cases h_ : a = '_'
  · subst h_
    simp at hfa
    subst hfa
    exact ⟨by decide, by decide⟩
  · simp [h_] at hfa
    subst hfa
    refine ⟨h_, ?_⟩
    rcases hmem with h | h
    · subst h; decide
    · exact h

/-- C7: `ruleNamingConvention` emits no diagnostic for a token whose name
matches the pattern and exactly one diagnostic for each token whose name
does not match (the output is exactly the non-matching tokens mapped to
their diagnostics, in order); the diagnostic's suggestion is the token name
lowercased with whitespace runs and underscores replaced by hyphens, and
therefore contains no underscore and no whitespace character. -/
theorem ruleNamingConvention_correct (tokens : List Token) (re : JsRegExp) (sev : Severity) :
    ruleNamingConvention tokens re sev
        = (tokens.filter fun t => ! re.test t.name).map (namingDiagFor re sev)
      ∧ (∀ t : Token, (namingDiagFor re sev t).suggestion = Json.str (namingSuggestion t.name))
      ∧ (∀ name : String, ∀ c ∈ (namingSuggestion name).data, c ≠ '_' ∧ isJsWs c = false) := by
  refine ⟨?_, fun t => rfl, fun name => namingSuggestion_clean name⟩
  induction tokens with
  | nil => rfl
  | cons t ts ih =>
    by_cases h : re.test t.name
    · simpa [ruleNamingConvention, h, List.filter] using ih
    · simpa [ruleNamingConvention, h, List.filter] using ih

/-- Inserting preserves a nonempty bucket at any key. -/
theorem addToColorMap_preserves (m : List (String × List Token)) (k k' : String) (t' : Token) :
    mapHasBucket m k → mapHasBucket (addToColorMap m k' t') k := by
  induction m with
  | nil => rintro ⟨ts, hts, _⟩; simp [colorMapGet] at hts
  | cons p rest ih =>
    rintro ⟨ts, hts, hne⟩
    obtain ⟨kb, tsb⟩ := p
    by_cases hk : kb = k'
    · subst hk
      by_cases hkk : kb = k
      · subst hkk
        refine ⟨tsb ++ [t'], ?_, ?_⟩
        · simp [addToColorMap, colorMapGet]
        · simp
      · refine ⟨ts, ?_, hne⟩
        simp [colorMapGet, hkk] at hts
        simp [addToColorMap, colorMapGet, hkk, hts]
    · by_cases hkk : kb = k
      · subst hkk
        simp [colorMapGet] at hts
        exact ⟨ts, by simp [addToColorMap, colorMapGet, hk, hts], hne⟩
      · simp [colorMapGet, hkk] at hts
        rcases ih ⟨ts, hts, hne⟩ with ⟨ts', hts', hne'⟩
        exact ⟨ts', by simp [addToColorMap, colorMapGet, hk, hkk, hts'], hne'⟩

/-- Inserting creates a nonempty bucket at the inserted key. -/
theorem addToColorMap_mem (m : List (String × List Token)) (k : String) (t' : Token) :
    mapHasBucket (addToColorMap m k t') k := by
  induction m with
  | nil => exact ⟨[t'], by simp [addToColorMap, colorMapGet], by simp⟩
  | cons p rest ih =>
    obtain ⟨kb, tsb⟩ := p
    by_cases hk : kb = k
    · subst hk
      exact ⟨tsb ++ [t'], by simp [addToColorMap, colorMapGet], by simp⟩
    · rcases ih with ⟨ts', hts', hne'⟩
      exact ⟨ts', by simp [addToColorMap, colorMapGet, hk, hts'], hne'⟩

/-- A nonempty bucket survives folding any further tokens into the map. -/
theorem foldl_addToColorMap_preserves (rest : List Token) :
    ∀ m k, mapHasBucket m k →
      mapHasBucket
        (rest.foldl (fun m t => addToColorMap m (normalizeColorValue t.rawValue) t) m) k := by
  induction rest with
  | nil => intro m k h; simpa using h
  | cons b rs ih =>
    intro m k h
    simp only [List.foldl_cons]
    exact ih _ _ (addToColorMap_preserves _ _ _ _ h)

/-- After folding a token list into the map, every member token's normalized
value owns a nonempty bucket. -/
theorem buildColorTokenMap_covers (l : List Token) (t : Token) (ht : t ∈ l) :
    mapHasBucket (buildColorTokenMap l) (normalizeColorValue t.rawValue) := by
  suffices h : ∀ m : List (String × List Token),
      mapHasBucket (l.foldl (fun m t => addToColorMap m (normalizeColorValue t.rawValue) t) m)
        (normalizeColorValue t.rawValue) by
    exact h []
  induction l with
  | nil => simp at ht
  | cons a rest ih =>
    intro m
    rcases List.mem_cons.mp ht with h | h
    · subst h
      simp only [List.foldl_cons]
      exact foldl_addToColorMap_preserves rest _ _ (addToColorMap_mem m _ t)
    · simp only [List.foldl_cons]
      exact ih h _

/-- C8: raw-color matching is normalization-equal: if a registered color
token normalizes to the same value as an extracted code literal, then
`detectRawColors` emits no diagnostic about that literal (no diagnostic
whose `problem` names its color value). -/
theorem detectRawColors_match_suppressed (codeFiles : List CodeFile) (tokens : List Token)
    (sev : Severity) (f : CodeFile) (c : RawValueMatch) (t : Token)
    (hf : f ∈ codeFiles) (hc : c ∈ extractRawColors f.content)
    (ht : t ∈ tokens) (hty : t.type = "color")
    (hnorm : normalizeColorValue t.rawValue = normalizeColorValue c.value)
    (d : Diagnostic) (hd : d ∈ detectRawColors codeFiles tokens sev) :
    d.problem ≠ Json.str ("raw color " ++ c.value) := by
  have htc : t ∈ tokens.filter (fun t => t.type = "color") := by
    simp [List.mem_filter, ht, hty]
  have hbucket := buildColorTokenMap_covers _ t htc
  simp only [detectRawColors, List.mem_flatMap, List.mem_filterMap] at hd
  rcases hd with ⟨cf, hcf, cm, hcm, hmk⟩
  have hkey : ∀ hcontr : cm.value = c.value, False := by
    intro hcontr
    rw [hcontr, ← hnorm] at hmk
    rcases hbucket with ⟨ts, hts, hne⟩
    rw [hts] at hmk
    cases ts with
    | nil => exact hne rfl
    | cons t0 ts0 => simp at hmk
  intro hp
  rcases hget : colorMapGet
      (buildColorTokenMap (tokens.filter fun t => t.type = "color"))
      (normalizeColorValue cm.value) with _ | ts
  all_goals rw [hget] at hmk
  · simp only [Option.some.injEq] at hmk
    rw [← hmk] at hp
    have hp' : Json.str ("raw color " ++ cm.value) = Json.str ("raw color " ++ c.value) := hp
    have hdata := congrArg String.data (Json.str.inj hp')
    simp only [String.data_append] at hdata
    exact hkey (String.ext (List.append_cancel_left hdata))
  · cases ts with
    | nil =>
      simp only [Option.some.injEq] at hmk
      rw [← hmk] at hp
      have hp' : Json.str ("raw color " ++ cm.value) = Json.str ("raw color " ++ c.value) := hp
      have hdata := congrArg String.data (Json.str.inj hp')
      simp only [String.data_append] at hdata
      exact hkey (String.ext (List.append_cancel_left hdata))
    | cons t0 ts0 => simp at hmk

/-- C10: every raw-color diagnostic's `suggestedToken` ignores the flagged
literal — it is always the first color token's name, or the fixed string
`'color.primary'` when there is no color token. -/
theorem detectRawColors_suggestedToken_const (codeFiles : List CodeFile) (tokens : List Token)
    (sev : Severity) :
    (∀ d ∈ detectRawColors codeFiles tokens sev,
        d.suggestedToken
          = Json.str (findClosestColorToken "" (tokens.filter fun t => t.type = "color")))
      ∧ (∀ v₁ v₂ : String, ∀ ts : List Token,
          findClosestColorToken v₁ ts = findClosestColorToken v₂ ts)
      ∧ (∀ v : String, findClosestColorToken v [] = "color.primary")
      ∧ (∀ v : String, ∀ t : Token, ∀ ts : List Token,
          findClosestColorToken v (t :: ts) = t.name) := by
  refine ⟨?_, fun v₁ v₂ ts => by cases ts <;> rfl, fun v => rfl, fun v t ts => rfl⟩
  intro d hd
  simp only [detectRawColors, List.mem_flatMap, List.mem_filterMap] at hd
  rcases hd with ⟨cf, hcf, cm, hcm, hmk⟩
  rcases hget : colorMapGet
      (buildColorTokenMap (tokens.filter fun t => t.type = "color"))
      (normalizeColorValue cm.value) with _ | ts
  · rw [hget] at hmk
    simp at hmk
    rw [← hmk]
    have : findClosestColorToken cm.value (tokens.filter fun t => t.type = "color")
        = findClosestColorToken "" (tokens.filter fun t => t.type = "color") := by
      cases tokens.filter fun t => t.type = "color" <;> rfl
    simp [this]
  · cases ts with
    | nil =>
      rw [hget] at hmk
      simp at hmk
      rw [← hmk]
      have : findClosestColorToken cm.value (tokens.filter fun t => t.type = "color")
          = findClosestColorToken "" (tokens.filter fun t => t.type = "color") := by
        cases tokens.filter fun t => t.type = "color" <;> rfl
      simp [this]
    | cons t0 ts0 =>
      rw [hget] at hmk
      simp at hmk

/-- Evaluation of the demo scenario: only the unmatched literal is flagged. -/
theorem demoRawColor_eval :
    detectRawColors demoCodeFiles demoTokens Severity.warn = [demoRawColorDiag] := rfl

/-- Witness for C8: in the demo scenario the literal `#FF0000` (line 2) matches
the registered token `#ff0000` case-insensitively, so the single emitted
diagnostic is not about it. -/
theorem detectRawColors_match_suppressed_witness :
    demoRawColorDiag.problem ≠ Json.str ("raw color " ++ "#FF0000") :=
  detectRawColors_match_suppressed demoCodeFiles demoTokens Severity.warn
    { path := "a.css", content := "x: #00ff11;\ny: #FF0000;" }
    { value := "#FF0000", line := 2, column := 4 }
    { type := "color", name := "brand.red", rawValue := "#ff0000" }
    (by decide) (by decide) (by decide) rfl (by decide)
    demoRawColorDiag (by rw [demoRawColor_eval]; exact List.mem_singleton.mpr rfl)

/-- Witness for C10: the demo diagnostic's suggested token is the first (only)
color token's name. -/
theorem detectRawColors_suggestedToken_const_witness :
    demoRawColorDiag.suggestedToken = Json.str "brand.red" :=
  (detectRawColors_suggestedToken_const demoCodeFiles demoTokens Severity.warn).1
    demoRawColorDiag (by rw [demoRawColor_eval]; exact List.mem_singleton.mpr rfl)

/-- Witness for C7: on the demo tokens the rule output is exactly the mapped
non-matching tokens, and a sample character of the suggestion for
`"Color Primary"` is neither an underscore nor whitespace. -/
theorem ruleNamingConvention_correct_witness :
    ruleNamingConvention demoNamingTokens demoRegExp Severity.error
        = ((demoNamingTokens.filter fun t => ! demoRegExp.test t.name).map
            (namingDiagFor demoRegExp Severity.error))
      ∧ ('o' ≠ '_' ∧ isJsWs 'o' = false) :=
  ⟨(ruleNamingConvention_correct demoNamingTokens demoRegExp Severity.error).1,
   (ruleNamingConvention_correct demoNamingTokens demoRegExp Severity.error).2.2
     "Color Primary" 'o' (by decide)⟩

/-- The suggestion on the spec's own example. -/
theorem namingSuggestion_example : namingSuggestion "Color Primary" = "color-primary" := rfl

/-- C6 fails on the code: `runStaticRules` has no per-rule try/catch, so the
`new RegExp` exception of the naming rule escapes the whole call and the
sibling raw-color rule's diagnostic (which the same inputs do produce when
the rule runs) is lost. -/
theorem runStaticRules_invalid_regex_aborts_siblings :
    runStaticRules badRegexCompile demoTokens demoStaticConfig (some demoCodeFiles)
        = Except.error "Invalid regular expression: Unterminated group"
      ∧ (detectRawColors demoCodeFiles demoTokens Severity.warn).length = 1 :=
  ⟨rfl, rfl⟩

/-! ## Theorems about the AI rule runner -/

/-- The rule loop returns exactly the concatenation of the per-rule outcome
contributions (failures contributing nothing). -/
theorem runAIRulesGo_eq_results (env : AIEnv) (provider : AIProvider)
    (modelName : Option String) (ctx : LintContext) :
    ∀ (rules : List AIRule) (ctr : Nat),
      runAIRulesGo env provider modelName ctx rules ctr
        = ((aiRuleResults env provider modelName ctx rules ctr).map okDiags).flatten := by
  intro rules
  induction rules with
  | nil => intro ctr; rfl
  | cons r rest ih =>
    intro ctr
    rcases h : runOneRule env provider modelName ctx r ctr with ⟨res, ctr'⟩
    cases res with
    | ok ds => simp [runAIRulesGo, aiRuleResults, h, okDiags, ih]
    | error e => simp [runAIRulesGo, aiRuleResults, h, okDiags, ih]

/-- There is exactly one per-rule outcome for every rule. -/
theorem aiRuleResults_length (env : AIEnv) (provider : AIProvider)
    (modelName : Option String) (ctx : LintContext) :
    ∀ (rules : List AIRule) (ctr : Nat),
      (aiRuleResults env provider modelName ctx rules ctr).length = rules.length := by
  intro rules
  induction rules with
  | nil => intro ctr; rfl
  | cons r rest ih => intro ctr; simp [aiRuleResults, ih]

/-- C1: every rule-local failure is absorbed by the per-rule catch:
`runAIRules` is a total function into diagnostic lists (it cannot reject),
its rule loop produces exactly one outcome per rule, and its result is the
concatenation of the diagnostics of the successful rules, failures
contributing nothing. -/
theorem runAIRules_isolates_rule_failures :
    (∀ (env : AIEnv) (provider : AIProvider) (modelName : Option String) (ctx : LintContext)
        (rules : List AIRule) (ctr : Nat),
      runAIRulesGo env provider modelName ctx rules ctr
          = ((aiRuleResults env provider modelName ctx rules ctr).map okDiags).flatten
        ∧ (aiRuleResults env provider modelName ctx rules ctr).length = rules.length)
    ∧ ∀ (env : AIEnv) (tokens : List Token) (rules : List AIRule) (provider : AIProvider)
        (codeFiles : Option (List CodeFile)) (modelName : Option String),
      runAIRules env tokens rules (some "key") provider codeFiles modelName
        = ((aiRuleResults env provider (normPinned modelName)
            { tokens := tokens, codeFiles := codeFiles } rules 0).map okDiags).flatten := by
  constructor
  · intro env provider modelName ctx rules ctr
    exact ⟨runAIRulesGo_eq_results env provider modelName ctx rules ctr,
      aiRuleResults_length env provider modelName ctx rules ctr⟩
  · intro env tokens rules provider codeFiles modelName
    have hres : resolveProviderKey env (some "key") provider = (provider, some "key") := by
      simp [resolveProviderKey, jsStrTruthy]
    simp [runAIRules, hres, jsStrTruthy, runAIRulesGo_eq_results]

/-- C2: provider and credential resolution is deterministic and
first-match-wins; with no truthy credential at all, `runAIRules` returns the
empty diagnostic list. -/
theorem runAIRules_provider_resolution (env : AIEnv) (apiKey : Option String)
    (provider : AIProvider) :
    (jsStrTruthy apiKey = true → resolveProviderKey env apiKey provider = (provider, apiKey))
    ∧ (jsStrTruthy apiKey = false → jsStrTruthy env.openaiKey = true →
        resolveProviderKey env apiKey provider = (AIProvider.openai, env.openaiKey))
    ∧ (jsStrTruthy apiKey = false → jsStrTruthy env.openaiKey = false →
        jsStrTruthy env.geminiKey = true →
        resolveProviderKey env apiKey provider = (AIProvider.gemini, env.geminiKey))
    ∧ (jsStrTruthy apiKey = false → jsStrTruthy env.openaiKey = false →
        jsStrTruthy env.geminiKey = false →
        ∀ (tokens : List Token) (rules : List AIRule) (codeFiles : Option (List CodeFile))
          (modelName : Option String),
          runAIRules env tokens rules apiKey provider codeFiles modelName = []) := by
  refine ⟨?_, ?_, ?_, ?_⟩
  · intro h; simp [resolveProviderKey, h]
  · intro h h2; simp [resolveProviderKey, h, h2]
  · intro h h2 h3; simp [resolveProviderKey, h, h2, h3]
  · intro h h2 h3 tokens rules codeFiles modelName
    simp [runAIRules, resolveProviderKey, h, h2, h3]

/-- C3 helper: the catch block always advances on a transient error. -/
theorem openaiCatchHandler_transient (modelName : Option String) (m : String) (e : JsError)
    (h : openaiTransient e = true) : openaiCatchHandler modelName m e = none := by
  simp [openaiCatchHandler, h]

/-- C3 helper (Gemini). -/
theorem geminiCatchHandler_transient (modelName : Option String) (m : String) (e : JsError)
    (h : geminiTransient e = true) : geminiCatchHandler modelName m e = none := by
  simp [geminiCatchHandler, h]

/-- C3: a request error classified quota/rate-limit or model-unavailable
always advances the fallback loop to the next candidate model — also when a
model was pinned — in both provider loops; when every candidate is exhausted
by such errors the loop fails with the aggregate error after consuming one
request per candidate; and a failed rule contributes no diagnostics while
the run continues with the remaining rules. -/
theorem modelFallback_transient_advances (env : AIEnv) (modelName : Option String) :
    (∀ (m : String) (rest : List String) (ctr : Nat) (e : JsError),
        env.outcomes ctr = CallOutcome.threw e →
        (openaiTransient e = true →
          openaiModelLoop env modelName (m :: rest) ctr
            = openaiModelLoop env modelName rest (ctr + 1))
        ∧ (geminiTransient e = true → ∀ lastError : Option JsError,
          geminiModelLoop env modelName (m :: rest) lastError ctr
            = geminiModelLoop env modelName rest (some e) (ctr + 1)))
    ∧ (∀ (models : List String) (ctr : Nat),
        (∀ i < models.length,
          ∃ e, env.outcomes (ctr + i) = CallOutcome.threw e ∧ openaiTransient e = true) →
        openaiModelLoop env modelName models ctr
          = (.error (JsError.ofMessage (openaiExhaustMsg modelName)), ctr + models.length))
    ∧ (∀ (models : List String) (ctr : Nat) (lastError : Option JsError),
        models ≠ [] →
        (∀ i < models.length,
          ∃ e, env.outcomes (ctr + i) = CallOutcome.threw e ∧ geminiTransient e = true) →
        ∃ e', geminiModelLoop env modelName models lastError ctr
          = (.error e', ctr + models.length))
    ∧ (∀ (provider : AIProvider) (ctx : LintContext) (rule : AIRule) (rest : List AIRule)
        (ctr : Nat) (e : JsError) (ctr' : Nat),
        runOneRule env provider modelName ctx rule ctr = (Except.error e, ctr') →
        runAIRulesGo env provider modelName ctx (rule :: rest) ctr
          = runAIRulesGo env provider modelName ctx rest ctr') := by
  refine ⟨?_, ?_, ?_, ?_⟩
  · intro m rest ctr e houtcome
    constructor
    · intro htrans
      simp [openaiModelLoop, houtcome, openaiCatchHandler_transient _ _ _ htrans]
    · intro htrans lastError
      simp [geminiModelLoop, houtcome, geminiCatchHandler_transient _ _ _ htrans]
  · intro models
    induction models with
    | nil => intro ctr _; simp [openaiModelLoop]
    | cons m rest ih =>
      intro ctr h
      obtain ⟨e, he, htrans⟩ := h 0 (by simp)
      rw [show ctr + 0 = ctr by omega] at he
      have step : openaiModelLoop env modelName (m :: rest) ctr
          = openaiModelLoop env modelName rest (ctr + 1) := by
        simp [openaiModelLoop, he, openaiCatchHandler_transient _ _ _ htrans]
      rw [step, ih (ctr + 1) ?_]
      · simp only [List.length_cons]
        rw [show ctr + 1 + rest.length = ctr + (rest.length + 1) from by omega]
      · intro i hi
        obtain ⟨e', he', ht'⟩ := h (i + 1) (by simpa using Nat.succ_lt_succ hi)
        exact ⟨e', by rw [show ctr + 1 + i = ctr + (i + 1) from by omega]; exact he', ht'⟩
  · intro models
    induction models with
    | nil => intro ctr lastError hne _; exact absurd rfl hne
    | cons m rest ih =>
      intro ctr lastError _ h
      obtain ⟨e, he, htrans⟩ := h 0 (by simp)
      rw [show ctr + 0 = ctr by omega] at he
      have step : geminiModelLoop env modelName (m :: rest) lastError ctr
          = geminiModelLoop env modelName rest (some e) (ctr + 1) := by
        simp [geminiModelLoop, he, geminiCatchHandler_transient _ _ _ htrans]
      cases rest with
      | nil =>
        rw [step]
        exact ⟨_, rfl⟩
      | cons m2 rest2 =>
        have hshift : ∀ i < (m2 :: rest2).length,
            ∃ e2, env.outcomes (ctr + 1 + i) = CallOutcome.threw e2 ∧ geminiTransient e2 = true := by
          intro i hi
          obtain ⟨e2, he2, ht2⟩ := h (i + 1) (by simpa using Nat.succ_lt_succ hi)
          exact ⟨e2, by rw [show ctr + 1 + i = ctr + (i + 1) from by omega]; exact he2, ht2⟩
        obtain ⟨e', he'⟩ := ih (ctr + 1) (some e) (by simp) hshift
        refine ⟨e', ?_⟩
        rw [step, he',
          show ctr + 1 + (m2 :: rest2).length = ctr + (m :: m2 :: rest2).length from by
            simp [List.length_cons]; omega]
  · intro provider ctx rule rest ctr e ctr' h
    simp [runAIRulesGo, h]

/-- C4: when strict validation fails but the (coerced) payload is an object
carrying an `issues` array, the runner accepts exactly that array and maps
its entries to diagnostics; when validation fails and no such array exists
the schema error escapes to the per-rule catch, and a failing rule
contributes zero diagnostics while the loop continues with the next rule. -/
theorem schemaFailure_salvage (rule : AIRule) (j : Json) (se : JsError) :
    (rule.schema j = .error se →
      ∀ (fs : List (String × Json)) (xs : List Json),
        j = Json.obj fs → List.lookup "issues" fs = some (Json.arr xs) →
        processParsed rule j = .ok (xs.map (issueToDiagnostic rule)))
    ∧ (rule.schema (coerceBareArray j) = .error se →
        salvageCond (coerceBareArray j) = false →
        processParsed rule j = .error se)
    ∧ (∀ (env : AIEnv) (provider : AIProvider) (modelName : Option String) (ctx : LintContext)
        (rest : List AIRule) (ctr ctr' : Nat) (e : JsError),
        runOneRule env provider modelName ctx rule ctr = (Except.error e, ctr') →
        runAIRulesGo env provider modelName ctx (rule :: rest) ctr
          = runAIRulesGo env provider modelName ctx rest ctr') := by
  refine ⟨?_, ?_, ?_⟩
  · intro hse fs xs hj hlk
    subst hj
    have hget : jsGetField (Json.obj fs) "issues" = Json.arr xs := by
      simp [jsGetField, hlk]
    have hsal : salvageCond (Json.obj fs) = true := by
      simp [salvageCond, jsTruthy, typeofObject, jsHasProp, hlk, hget, Json.isArr]
    have hcoerce : coerceBareArray (Json.obj fs) = Json.obj fs := rfl
    simp [processParsed, hcoerce, hse, hsal, hget, hlk, mapIssues, jsGetField, List.lookup,
      jsTruthy, jsIterate]
  · intro hse hsal
    simp [processParsed, hse, hsal]
  · intro env provider modelName ctx rest ctr ctr' e h
    simp [runAIRulesGo, h]

/-- The post-loop pipeline does not distinguish a payload from its coerced
form. -/
theorem processParsed_coerce (rule : AIRule) (raw : Json) :
    processParsed rule (coerceBareArray raw) = processParsed rule raw := by
  cases raw <;> rfl

/-- The wrapping environment has the same outcome stream. -/
theorem wrapParsedEnv_outcomes (env : AIEnv) : (wrapParsedEnv env).outcomes = env.outcomes := rfl

/-- The wrapping environment's parse results, pointwise. -/
theorem wrapParsedEnv_jsonParse (env : AIEnv) (s : String) :
    (wrapParsedEnv env).jsonParse s = (env.jsonParse s).map coerceBareArray := rfl

/-- The OpenAI loop under the wrapping environment: same control flow and
counter, with the successful payload coerced. -/
theorem openaiModelLoop_wrapEnv (env : AIEnv) (modelName : Option String) :
    ∀ (models : List String) (ctr : Nat),
      openaiModelLoop (wrapParsedEnv env) modelName models ctr
        = ((openaiModelLoop env modelName models ctr).1.map coerceBareArray,
           (openaiModelLoop env modelName models ctr).2) := by
  intro models
  induction models with
  | nil => intro ctr; rfl
  | cons m rest ih =>
    intro ctr
    simp only [openaiModelLoop, wrapParsedEnv_outcomes, wrapParsedEnv_jsonParse]
    rcases ho : env.outcomes ctr with content | e
    · by_cases hc : jsStrTruthy content
      · simp only [ho, hc]
        rcases hp : env.jsonParse (content.getD "") with pe | jv
        · rcases hh : openaiCatchHandler modelName m pe with _ | thrown <;>
            simp [hp, hh, Except.map, ih]
        · simp [hp, Except.map]
      · cases modelName with
        | none => simp [ho, hc, ih]
        | some mn =>
          rcases hh : openaiCatchHandler (some mn) m
              (JsError.ofMessage ("モデル " ++ m ++ " が空のレスポンスを返しました")) with _ | thrown <;>
            simp [ho, hc, hh, Except.map, ih]
    · rcases hh : openaiCatchHandler modelName m e with _ | thrown <;>
        simp [ho, hh, Except.map, ih]

/-- The Gemini loop under the wrapping environment. -/
theorem geminiModelLoop_wrapEnv (env : AIEnv) (modelName : Option String) :
    ∀ (models : List String) (lastError : Option JsError) (ctr : Nat),
      geminiModelLoop (wrapParsedEnv env) modelName models lastError ctr
        = ((geminiModelLoop env modelName models lastError ctr).1.map coerceBareArray,
           (geminiModelLoop env modelName models lastError ctr).2) := by
  intro models
  induction models with
  | nil => intro lastError ctr; cases lastError <;> rfl
  | cons m rest ih =>
    intro lastError ctr
    simp only [geminiModelLoop, wrapParsedEnv_outcomes, wrapParsedEnv_jsonParse]
    rcases ho : env.outcomes ctr with t | e
    · by_cases ht : stripJsonFences (t.getD "") = ""
      · rcases hh : geminiCatchHandler modelName m
            (JsError.ofMessage "Empty response from Gemini API") with _ | thrown <;>
          simp [ho, ht, hh, Except.map, ih]
      · rcases hp : env.jsonParse (stripJsonFences (t.getD "")) with pe | jv
        · rcases hh : geminiCatchHandler modelName m pe with _ | thrown <;>
            simp [ho, ht, hp, hh, Except.map, ih]
        · simp [ho, ht, hp, Except.map]
    · rcases hh : geminiCatchHandler modelName m e with _ | thrown <;>
        simp [ho, hh, Except.map, ih]

/-- One rule behaves identically under the wrapping environment. -/
theorem runOneRule_wrapEnv (env : AIEnv) (provider : AIProvider) (modelName : Option String)
    (ctx : LintContext) (rule : AIRule) (ctr : Nat) :
    runOneRule (wrapParsedEnv env) provider modelName ctx rule ctr
      = runOneRule env provider modelName ctx rule ctr := by
  cases provider
  case openai =>
    simp only [runOneRule, openaiModelLoop_wrapEnv]
    rcases h : openaiModelLoop env modelName
        (match modelName with | some mn => [mn] | none => openaiDefaultModels) ctr with ⟨res, c⟩
    cases res with
    | error e => simp [Except.map]
    | ok raw => simp [Except.map, processParsed_coerce]
  case gemini =>
    simp only [runOneRule, geminiModelLoop_wrapEnv]
    rcases h : geminiModelLoop env modelName
        (match modelName with | some mn => [mn] | none => geminiDefaultModels) none ctr with ⟨res, c⟩
    cases res with
    | error e => simp [Except.map]
    | ok raw => simp [Except.map, processParsed_coerce]

/-- C5: a bare array `A` is processed identically to the wrapped object
`{issues: A}` — the post-loop pipeline coerces it before validation, and a
whole run whose `JSON.parse` results are all wrapped that way produces
exactly the same diagnostics. -/
theorem bareArray_wrapped_equiv :
    (∀ (rule : AIRule) (A : List Json),
        processParsed rule (Json.arr A) = processParsed rule (Json.obj [("issues", Json.arr A)]))
    ∧ ∀ (env : AIEnv) (provider : AIProvider) (modelName : Option String) (ctx : LintContext)
        (rules : List AIRule) (ctr : Nat),
        runAIRulesGo (wrapParsedEnv env) provider modelName ctx rules ctr
          = runAIRulesGo env provider modelName ctx rules ctr := by
  constructor
  · intro rule A; rfl
  · intro env provider modelName ctx rules
    induction rules with
    | nil => intro ctr; rfl
    | cons r rest ih =>
      intro ctr
      simp only [runAIRulesGo, runOneRule_wrapEnv]
      rcases h : runOneRule env provider modelName ctx r ctr with ⟨res, ctr'⟩
      cases res <;> simp [ih]

/-- Witness for C2: each resolution branch on concrete environments, and the
credential-free run returning no diagnostics. -/
theorem runAIRules_provider_resolution_witness :
    resolveProviderKey noopEnv (some "explicit") AIProvider.gemini
        = (AIProvider.gemini, some "explicit")
      ∧ resolveProviderKey envOpenaiKey none AIProvider.gemini
        = (AIProvider.openai, some "sk-test")
      ∧ resolveProviderKey envGeminiKey none AIProvider.openai
        = (AIProvider.gemini, some "g-test")
      ∧ runAIRules noopEnv [] [] none AIProvider.openai none none = [] :=
  ⟨(runAIRules_provider_resolution noopEnv (some "explicit") AIProvider.gemini).1 (by decide),
   (runAIRules_provider_resolution envOpenaiKey none AIProvider.gemini).2.1
     (by decide) (by decide),
   (runAIRules_provider_resolution envGeminiKey none AIProvider.openai).2.2.1
     (by decide) (by decide) (by decide),
   (runAIRules_provider_resolution noopEnv none AIProvider.openai).2.2.2
     (by decide) (by decide) (by decide) [] [] none none⟩

/-- Witness for C3: with a pinned model both loops still advance past the
quota error; the default OpenAI list is exhausted into the aggregate error
after one request per model; and the rule that failed that way is skipped
while the loop continues. -/
theorem modelFallback_transient_advances_witness :
    openaiModelLoop envAllQuota (some "gpt-4o") ["gpt-4o"] 0
        = openaiModelLoop envAllQuota (some "gpt-4o") [] 1
      ∧ geminiModelLoop envAllQuota (some "gemini-pro") ["gemini-pro"] none 0
        = geminiModelLoop envAllQuota (some "gemini-pro") [] (some quotaError) 1
      ∧ openaiModelLoop envAllQuota none openaiDefaultModels 0
        = (Except.error (JsError.ofMessage (openaiExhaustMsg none)), 4)
      ∧ runAIRulesGo envAllQuota AIProvider.openai (some "gpt-4o") demoCtx [demoAIRule] 0
        = runAIRulesGo envAllQuota AIProvider.openai (some "gpt-4o") demoCtx [] 1 := by
  refine ⟨((modelFallback_transient_advances envAllQuota (some "gpt-4o")).1
      "gpt-4o" [] 0 quotaError rfl).1 rfl,
    ((modelFallback_transient_advances envAllQuota (some "gemini-pro")).1
      "gemini-pro" [] 0 quotaError rfl).2 rfl none,
    ?_,
    (modelFallback_transient_advances envAllQuota (some "gpt-4o")).2.2.2
      AIProvider.openai demoCtx demoAIRule [] 0 _ 1 rfl⟩
  have h := (modelFallback_transient_advances envAllQuota none).2.1 openaiDefaultModels 0
    (fun i _ => ⟨quotaError, rfl, rfl⟩)
  simpa using h

/-- Witness for C4: the rejected-but-salvageable payload yields exactly its
`issues` entries as diagnostics; a rejected payload with no `issues` array
fails with the schema error. -/
theorem schemaFailure_salvage_witness :
    processParsed strictDemoRule salvageJson
        = Except.ok [issueToDiagnostic strictDemoRule (Json.obj [("tokenName", Json.str "color.x")])]
      ∧ processParsed strictDemoRule (Json.str "junk") = Except.error schemaErrDemo :=
  ⟨(schemaFailure_salvage strictDemoRule salvageJson schemaErrDemo).1 rfl _ _ rfl rfl,
   (schemaFailure_salvage strictDemoRule (Json.str "junk") schemaErrDemo).2.1 rfl rfl⟩

/-- Counterexample to C9: with the first entry's prompt file missing and the
second entry fully loadable, `loadCustomRules` resolves successfully with
just the second rule — the missing file is not propagated to the caller and
loading continues past the affected rule. -/
theorem loadCustomRules_missing_file_not_fatal :
    (loadCustomRules demoFs [missingPromptCfg, goodCfg]).map (fun rs => rs.map (fun r => r.id))
      = Except.ok ["custom-2"] := rfl

/-- C9 (amended): a missing prompt file or schema file causes that entry to
be skipped (with a logged warning) while loading continues with the
remaining entries, and `loadCustomRules` always resolves successfully. -/
theorem loadCustomRules_skips_missing_files (env : FsEnv) (cfg : CustomRuleConfig)
    (rest : List CustomRuleConfig) :
    (env.fileExists (env.resolvePath cfg.prompt) = false →
      loadCustomRules env (cfg :: rest) = loadCustomRules env rest)
    ∧ (∀ promptText : String, env.fileExists (env.resolvePath cfg.prompt) = true →
        env.readFile (env.resolvePath cfg.prompt) = .ok promptText →
        env.fileExists (env.resolvePath cfg.schema) = false →
        loadCustomRules env (cfg :: rest) = loadCustomRules env rest)
    ∧ (∀ configs : List CustomRuleConfig,
        loadCustomRules env configs = .ok (loadCustomRulesGo env configs [])) := by
  refine ⟨?_, ?_, fun configs => rfl⟩
  · intro h
    have hone : loadOneCustomRule env cfg = .ok none := by
      simp [loadOneCustomRule, h]
    simp [loadCustomRules, loadCustomRulesGo, hone]
  · intro promptText h hr h2
    have hone : loadOneCustomRule env cfg = .ok none := by
      simp [loadOneCustomRule, h, hr, h2]
    simp [loadCustomRules, loadCustomRulesGo, hone]

/-- Witness for the amended C9 on the concrete file system: both a missing
prompt file and a missing schema file skip the entry and continue. -/
theorem loadCustomRules_skips_missing_files_witness :
    loadCustomRules demoFs [missingPromptCfg] = loadCustomRules demoFs []
      ∧ loadCustomRules demoFs [missingSchemaCfg] = loadCustomRules demoFs [] :=
  ⟨(loadCustomRules_skips_missing_files demoFs missingPromptCfg []).1 (by decide),
   (loadCustomRules_skips_missing_files demoFs missingSchemaCfg []).2.1
     "Check tokens." (by decide) rfl (by decide)⟩

end DesignTools
